import Mathlib

set_option maxHeartbeats 1000000

/-!
Verification development for the slug logging library
(src/include/slug.hpp, src/slug.cpp).

The C++ source is shallowly embedded: the sink (`basic_logstream`) becomes a
small state machine over an explicit filesystem/console world, and the logger
(`basic_logger`) becomes pure functions that gate by severity, format a line,
and record the lock/write/unlock actions each call performs on the sink.
Real time and thread identity enter only as call parameters (`ms`, `tid`):
the logger prints them but never branches on them.
-/

namespace slug

/-- Severity levels, slug.hpp line 26:
`enum class log_level : std::uint8_t { Trace, Info, Warn, Error, Fatal, None }`. -/
inductive log_level where
| Trace
| Info
| Warn
| Error
| Fatal
| None
deriving DecidableEq, Repr

/-- The underlying `std::uint8_t` value of each enumerator (consecutive from 0,
the C++ default).  `operator>=` on the enum class compares these values. -/
def log_level.toNat : log_level → Nat
| .Trace => 0
| .Info => 1
| .Warn => 2
| .Error => 3
| .Fatal => 4
| .None => 5

/-- File paths (`std::filesystem::path`), modelled as strings. -/
abbrev Path := String

/-- The world outside the stream object: which paths can be opened
(`canOpen p = false` models a missing parent directory or permissions),
the byte content of each file (absent files have content `""` and are
created on a successful open), and the text so far written to the
console stream `std::clog`. -/
structure World where
  canOpen : Path → Bool
  content : Path → String
  console : String

/-- Which `streambuf` the stream's `rdbuf()` currently points at:
`std::clog.rdbuf()` or the member `m_filebuf` (slug.hpp lines 53, 57, 91, 103). -/
inductive Buf where
| console
| filebuf
deriving DecidableEq, Repr

/-- State of a `basic_logstream` (slug.hpp lines 45-116):
`openPath` is the file `m_filebuf` currently has open (if any), `buf` is the
active `rdbuf()` target, and `fail`/`bad` are the stream's `failbit`/`badbit`. -/
structure LogstreamState where
  buf : Buf
  openPath : Option Path
  fail : Bool
  bad : Bool
deriving DecidableEq, Repr

/-- The default-constructed stream, slug.hpp line 57:
`basic_logstream() : os_type{std::clog.rdbuf()} {}` — console buffer,
no open file, clean state. -/
def initStream : LogstreamState :=
  { buf := Buf.console, openPath := none, fail := false, bad := false }

/-- `bool is_open() const { return m_filebuf.is_open(); }` (slug.hpp line 77). -/
def LogstreamState.isOpen (s : LogstreamState) : Bool := s.openPath.isSome

/-- The subset of `std::ios` open-mode flags that matter to file content.
slug.hpp line 83 passes `std::ios::binary | std::ios::out | std::ios::app`. -/
structure OpenFlags where
  app : Bool
  trunc : Bool
deriving DecidableEq, Repr

/-- The flags hard-coded in `basic_logstream::open`, slug.hpp line 83:
append, never truncate. -/
def slugFlags : OpenFlags := { app := true, trunc := false }

/-- `m_filebuf.open(filepath, flags)` (slug.hpp line 87): fails (returns
`nullptr`, here `none`) when the path cannot be opened; on success the file is
created if absent and truncated only when the `trunc` flag is set. -/
def filebuf_open (w : World) (p : Path) (fl : OpenFlags) : Option World :=
  if w.canOpen p then
    some { w with content := fun q => if fl.trunc && (q == p) then "" else w.content q }
  else
    none

/-- `basic_logstream::close` (slug.hpp lines 98-107): flush (no effect on the
modelled content, which is written through immediately), then, only if a file
is open, close `m_filebuf` and repoint `rdbuf()` at the console.
`basic_ios::rdbuf(sb)` clears the stream's error state ([basic.ios.members]),
hence the cleared bits in that branch; with no open file the state is
returned unchanged. -/
def stream_close (s : LogstreamState) : LogstreamState :=
  if s.openPath.isSome then
    { buf := Buf.console, openPath := none, fail := false, bad := false }
  else
    s

/-- `basic_logstream::open` (slug.hpp lines 82-94) with explicit flags:
`if (is_open()) close();` then attempt `m_filebuf.open`; on `nullptr` do
`setstate(failbit)`; then `flush()` (a no-op when the failbit is set, and
content-neutral here anyway) and `rdbuf(&m_filebuf)` — which repoints the
stream at `m_filebuf` unconditionally and, per [basic.ios.members], clears
the error state it may just have set. -/
def stream_open_fl (fl : OpenFlags) (w : World) (s : LogstreamState) (p : Path) :
    World × LogstreamState :=
  let s1 := if s.openPath.isSome then stream_close s else s
  match filebuf_open w p fl with
  | some w1 =>
      (w1, { buf := Buf.filebuf, openPath := some p, fail := false, bad := false })
  | none =>
      (w, { buf := Buf.filebuf, openPath := s1.openPath, fail := false, bad := false })

/-- `basic_logstream::open` with the flags the source hard-codes. -/
def stream_open (w : World) (s : LogstreamState) (p : Path) : World × LogstreamState :=
  stream_open_fl slugFlags w s p

/-- One `operator<<` insertion of already-formatted text into the stream.
If `failbit` or `badbit` is set the sentry fails and nothing happens
([ostream.sentry]).  Otherwise the text goes to whichever buffer `rdbuf()`
points at; writing through a closed `m_filebuf` makes `overflow` fail, which
sets `badbit` and emits nothing ([ostream.formatted]). -/
def stream_write (w : World) (s : LogstreamState) (str : String) :
    World × LogstreamState :=
  if s.fail || s.bad then (w, s)
  else
    match s.buf, s.openPath with
    | Buf.console, _ => ({ w with console := w.console ++ str }, s)
    | Buf.filebuf, some p =>
        ({ w with content := fun q => if q == p then w.content q ++ str else w.content q }, s)
    | Buf.filebuf, Option.none => (w, { s with bad := true })

/-- A sequence of `operator<<` insertions, left to right. -/
def writeAll (w : World) (s : LogstreamState) : List String → World × LogstreamState
| [] => (w, s)
| str :: rest =>
    let r := stream_write w s str
    writeAll r.1 r.2 rest

/-- Concatenation of a list of strings in order, with no separator
(the fold `(m_lstrm << ... << msgs)` over the argument pack). -/
def concatStrs : List String → String
| [] => ""
| s :: rest => s ++ concatStrs rest

/-- Left-pad `s` with copies of `c` to width `wd` (`std::setw` with the
default right adjustment and the default space fill). -/
def padLeft (c : Char) (wd : Nat) (s : String) : String :=
  String.mk (List.replicate (wd - s.length) c) ++ s

/-- `std::fixed << std::setprecision(3)` applied to the elapsed seconds.
`elapsed_time()` (slug.hpp lines 311-314) is `duration<double>` built from a
whole number of milliseconds, so the printed value is exactly the
millisecond count with three digits after the point. -/
def fmtFixed3 (ms : Nat) : String :=
  toString (ms / 1000) ++ "." ++ padLeft '0' 3 (toString (ms % 1000))

/-- `basic_logger::msg_prefix` (slug.hpp lines 294-301):
`'[' << setw(5) << this_thread::get_id() << ',' << ' '` then
`fixed << setprecision(3) << elapsed_time() << "] "`.  The thread id is an
opaque rendering, here a decimal `tid`, left-padded to width 5 by `setw(5)`. -/
def msgHeader (tid ms : Nat) : String :=
  "[" ++ padLeft ' ' 5 (toString tid) ++ ", " ++ fmtFixed3 ms ++ "] "

/-- State of a `basic_logger` (slug.hpp lines 135-329): the atomic minimum
level `m_min_lvl_atm` and the owned `basic_logstream m_lstrm`.
`m_start_time` is absorbed into the `ms` (elapsed milliseconds) parameter of
each call. -/
structure LoggerState where
  minLvl : log_level
  strm : LogstreamState
deriving DecidableEq, Repr

/-- Observable actions a logger call performs on the shared stream:
acquiring/releasing `m_lstrm_mtx` and inserting text. -/
inductive Event where
| lock
| write (s : String)
| unlock
deriving DecidableEq, Repr

/-- The severity gate, e.g. slug.hpp line 228:
`slug::fatal >= m_min_lvl_atm.load()` — a `>=` on the underlying
`std::uint8_t` values. -/
def gatePass (sev thr : log_level) : Bool := thr.toNat ≤ sev.toNat

/-- The text insertions of one emitted call, in source order
(slug.hpp lines 230-231): the header, the level tag, each argument of the
pack, and the `std::endl` (a `'\n'` that also flushes). -/
def callTexts (tag : String) (tid ms : Nat) (msgs : List String) : List String :=
  msgHeader tid ms :: tag :: (msgs ++ ["\n"])

/-- The common body of the five leveled calls (slug.hpp lines 226-290):
if the severity passes the gate, lock `m_lstrm_mtx`, insert header, tag,
arguments and `endl` into the stream, unlock (end of scope), and in every
case return `*this` (here: the resulting logger state).  The third component
records the lock/write/unlock actions performed. -/
def logCall (sev : log_level) (tag : String) (tid ms : Nat) (msgs : List String)
    (l : LoggerState) (w : World) : LoggerState × World × List Event :=
  if gatePass sev l.minLvl then
    let r := writeAll w l.strm (callTexts tag tid ms msgs)
    ({ l with strm := r.2 }, r.1,
      Event.lock :: (callTexts tag tid ms msgs).map Event.write ++ [Event.unlock])
  else
    (l, w, [])

/-- `basic_logger::fatal` (slug.hpp lines 226-234). -/
def fatal : Nat → Nat → List String → LoggerState → World → LoggerState × World × List Event :=
  logCall log_level.Fatal "FATAL: "

/-- `basic_logger::error` (slug.hpp lines 240-248). -/
def error : Nat → Nat → List String → LoggerState → World → LoggerState × World × List Event :=
  logCall log_level.Error "ERROR: "

/-- `basic_logger::warning` (slug.hpp lines 254-262). -/
def warning : Nat → Nat → List String → LoggerState → World → LoggerState × World × List Event :=
  logCall log_level.Warn "WARN:  "

/-- `basic_logger::info` (slug.hpp lines 268-276). -/
def info : Nat → Nat → List String → LoggerState → World → LoggerState × World × List Event :=
  logCall log_level.Info "INFO:  "

/-- `basic_logger::trace` (slug.hpp lines 282-290). -/
def trace : Nat → Nat → List String → LoggerState → World → LoggerState × World × List Event :=
  logCall log_level.Trace "TRACE: "

/-- `basic_logger::open_file` (slug.hpp lines 208-212): under the lock,
`m_lstrm.open(filepath)`; returns `*this`. -/
def open_file (p : Path) (l : LoggerState) (w : World) :
    LoggerState × World × List Event :=
  let r := stream_open w l.strm p
  ({ l with strm := r.2 }, r.1, [Event.lock, Event.unlock])

/-- `basic_logger::close_file` (slug.hpp lines 216-220): under the lock,
`m_lstrm.close()`; returns `*this`. -/
def close_file (l : LoggerState) (w : World) : LoggerState × World × List Event :=
  ({ l with strm := stream_close l.strm }, w, [Event.lock, Event.unlock])

/-- The operations a client can apply to one sink, for reachability
arguments over `basic_logstream` states. -/
inductive SinkOp where
| op_open (p : Path)
| op_close
| op_write (s : String)

/-- Apply one sink operation. -/
def applyOp : World × LogstreamState → SinkOp → World × LogstreamState
| (w, s), SinkOp.op_open p => stream_open w s p
| (w, s), SinkOp.op_close => (w, stream_close s)
| (w, s), SinkOp.op_write str => stream_write w s str

/-- Run a list of sink operations from the default-constructed stream:
every reachable sink state is `(runOps w0 ops).2` for some `w0`, `ops`. -/
def runOps (w0 : World) (ops : List SinkOp) : World × LogstreamState :=
  ops.foldl applyOp (w0, initStream)

/-- A tiny concrete world for witnesses: only the path `"ok"` can be opened,
all files empty, console empty. -/
def w0 : World :=
  { canOpen := fun p => p == "ok", content := fun _ => "", console := "" }

/-- A concrete world whose file `"ok"` already holds the bytes `"old"`. -/
def w1 : World :=
  { canOpen := fun p => p == "ok"
    content := fun p => if p == "ok" then "old" else ""
    console := "" }

/-- The text carried by an event, if any. -/
def evText : Event → Option String
| Event.write s => some s
| _ => none

/-- The text insertions of an event list, concatenated in order: the data a
call actually sends into the stream. -/
def lineOfEvents (evs : List Event) : String :=
  concatStrs (evs.filterMap evText)

/-! ## Interleaving machine for claim C2

`N` threads share one logger.  Each emitted log call is a critical section:
acquire `m_lstrm_mtx`, insert its text fragments one `operator<<` at a time,
release.  The machine below interleaves threads at the granularity of single
insertions; the mutex is the `owner` field, and `Step.seg` (an insertion)
requires ownership, exactly as every sink-touching operation in
slug.hpp (lines 226-290) runs under `lock_stream()`. -/

/-- One call's worth of pending sink work for a thread: `idle js` means the
thread is between critical sections with jobs `js` left; `run cur js` means
it holds the mutex and still has to insert the fragments `cur`. -/
inductive TState where
| idle (jobs : List (List String))
| run (cur : List String) (jobs : List (List String))

/-- Configuration: who owns the mutex, each thread's state, and the text the
sink has received so far. -/
structure Conf (n : Nat) where
  owner : Option (Fin n)
  thr : Fin n → TState
  out : String

/-- All threads idle with their job lists, nothing written, mutex free. -/
def initConf {n : Nat} (jobs : Fin n → List (List String)) : Conf n :=
  { owner := none, thr := fun t => TState.idle (jobs t), out := "" }

/-- The complete line a job produces: its fragments concatenated. -/
def lineOf (j : List String) : String := concatStrs j

/-- Interleaving semantics: a thread may acquire the free mutex to start its
next job, insert the next fragment of its running job while it owns the
mutex, or release the mutex when its job's fragments are exhausted. -/
inductive Step {n : Nat} : Conf n → Conf n → Prop
| start (c : Conf n) (t : Fin n) (j : List String) (js : List (List String)) :
    c.owner = none → c.thr t = TState.idle (j :: js) →
    Step c ⟨some t, Function.update c.thr t (TState.run j js), c.out⟩
| seg (c : Conf n) (t : Fin n) (s : String) (cur : List String)
    (js : List (List String)) :
    c.owner = some t → c.thr t = TState.run (s :: cur) js →
    Step c ⟨some t, Function.update c.thr t (TState.run cur js), c.out ++ s⟩
| finish (c : Conf n) (t : Fin n) (js : List (List String)) :
    c.owner = some t → c.thr t = TState.run [] js →
    Step c ⟨none, Function.update c.thr t (TState.idle js), c.out⟩

/-- Any number of interleaved steps. -/
def Steps {n : Nat} : Conf n → Conf n → Prop := Relation.ReflTransGen Step

/-- The lines a thread has not yet started (its queued jobs). -/
def restLines : TState → List String
| TState.idle js => js.map lineOf
| TState.run _ js => js.map lineOf

/-- Multiset of all queued lines across threads. -/
def pendM {n : Nat} (f : Fin n → TState) : Multiset String :=
  ∑ t : Fin n, ((restLines (f t) : List String) : Multiset String)

/-- Execution invariant: the sink content is always a concatenation of
complete lines followed by the partial text of the current mutex owner (if
any), and those finished lines plus the queued ones account for exactly the
multiset `A` of all lines. -/
def Inv {n : Nat} (A : Multiset String) (c : Conf n) : Prop :=
  (c.owner = none →
    (∀ t, ∃ js, c.thr t = TState.idle js) ∧
    ∃ done : List String,
      c.out = concatStrs done ∧ (done : Multiset String) + pendM c.thr = A) ∧
  (∀ t, c.owner = some t →
    ∃ cur js done written,
      c.thr t = TState.run cur js ∧
      (∀ u, u ≠ t → ∃ js2, c.thr u = TState.idle js2) ∧
      c.out = concatStrs done ++ written ∧
      (done : Multiset String) + {written ++ lineOf cur} + pendM c.thr = A)

/-- Data of one leveled call that passed the gate: level tag, calling
thread's id, elapsed milliseconds, and the argument pack. -/
structure CallSpec where
  tag : String
  tid : Nat
  ms : Nat
  msgs : List String

/-- The fragments such a call inserts under the mutex (its machine job). -/
def callSegs (q : CallSpec) : List String := callTexts q.tag q.tid q.ms q.msgs

/-- The complete line such a call leaves on the sink. -/
def callLine (q : CallSpec) : String := lineOf (callSegs q)

/-- Concrete call for the C2 witness execution. -/
def wSpec : CallSpec := { tag := "INFO:  ", tid := 7, ms := 1234, msgs := [] }

/-- One thread, one call. -/
def wCalls : Fin 1 → List CallSpec := fun _ => [wSpec]

/-- The configuration the C2 witness execution ends in. -/
def wFinal : Conf 1 :=
  { owner := none, thr := fun _ => TState.idle [], out := "[    7, 1.234] INFO:  \n" }

/-! ## Lock-order machine for claim C9

`basic_logger::swap` (slug.hpp lines 320-328) takes `this`'s mutex and then
`rhs`'s mutex, in that fixed argument order.  Below, two threads run
`a.swap(b)` and `b.swap(a)` concurrently over the two mutexes A and B; each
thread's program is the lock/unlock sequence the source performs (the two
`std::unique_lock`s release in reverse order at scope exit). -/

/-- Lock actions on the two loggers' mutexes. -/
inductive LAct where
| acqA
| acqB
| relA
| relB
deriving DecidableEq, Repr

/-- The mutex actions of `a.swap(b)`: `auto l{lock_stream()}` then
`auto lr{rhs.lock_stream()}`, destructors in reverse order. -/
def swapProgA : List LAct := [LAct.acqA, LAct.acqB, LAct.relB, LAct.relA]

/-- The mutex actions of the concurrent `b.swap(a)`. -/
def swapProgB : List LAct := [LAct.acqB, LAct.acqA, LAct.relA, LAct.relB]

/-- Two threads (`false` and `true`), two mutexes with owners, each thread's
remaining program. -/
structure SConf where
  lockA : Option Bool
  lockB : Option Bool
  prog : Bool → List LAct

/-- Blocking mutex semantics: an acquire fires only when the mutex is free;
a release fires when the thread owns the mutex. -/
inductive SStep : SConf → SConf → Prop
| acqA (c : SConf) (t : Bool) (r : List LAct) :
    c.prog t = LAct.acqA :: r → c.lockA = none →
    SStep c ⟨some t, c.lockB, Function.update c.prog t r⟩
| acqB (c : SConf) (t : Bool) (r : List LAct) :
    c.prog t = LAct.acqB :: r → c.lockB = none →
    SStep c ⟨c.lockA, some t, Function.update c.prog t r⟩
| relA (c : SConf) (t : Bool) (r : List LAct) :
    c.prog t = LAct.relA :: r → c.lockA = some t →
    SStep c ⟨none, c.lockB, Function.update c.prog t r⟩
| relB (c : SConf) (t : Bool) (r : List LAct) :
    c.prog t = LAct.relB :: r → c.lockB = some t →
    SStep c ⟨c.lockA, none, Function.update c.prog t r⟩

/-- Initial configuration: thread `false` about to run `a.swap(b)`, thread
`true` about to run `b.swap(a)`, both mutexes free. -/
def swapInit : SConf :=
  { lockA := none, lockB := none
    prog := fun t => if t then swapProgB else swapProgA }

/-- The configuration after thread `false` takes mutex A and thread `true`
takes mutex B: each now waits on the mutex the other holds. -/
def swapDead : SConf :=
  { lockA := some false, lockB := some true
    prog := fun t =>
      if t then [LAct.acqA, LAct.relA, LAct.relB]
      else [LAct.acqB, LAct.relB, LAct.relA] }

/-! ## Helper lemmas -/

theorem concatStrs_append (l1 l2 : List String) :
    concatStrs (l1 ++ l2) = concatStrs l1 ++ concatStrs l2 := by
  induction l1 with
  | nil => simp [concatStrs, String.empty_append]
  | cons a l ih => simp [concatStrs, ih, String.append_assoc]

theorem filterMap_evText_writes (l : List String) :
    (Event.lock :: l.map Event.write ++ [Event.unlock]).filterMap evText = l := by
  induction l with
  | nil => rfl
  | cons s r ih =>
      simpa [List.filterMap_cons, evText] using ih

theorem stream_write_console (w : World) (str : String) :
    stream_write w initStream str =
      ({ w with console := w.console ++ str }, initStream) := rfl

theorem writeAll_console (segs : List String) : ∀ (w : World),
    writeAll w initStream segs =
      ({ w with console := w.console ++ concatStrs segs }, initStream) := by
  induction segs with
  | nil =>
      intro w
      simp [writeAll, concatStrs, String.append_empty]
  | cons s rest ih =>
      intro w
      rw [writeAll, stream_write_console, ih]
      simp [concatStrs, String.append_assoc]

/-- The lock discipline of an emitted call (slug.hpp lines 226-234 and
siblings): the whole event trace is one mutex acquisition, then all the
line's insertions, then the release — the mutex is held for the full
duration of the sink access. -/
theorem logCall_events_locked (sev : log_level) (tag : String) (tid ms : Nat)
    (msgs : List String) (l : LoggerState) (w : World)
    (h : gatePass sev l.minLvl = true) :
    (logCall sev tag tid ms msgs l w).2.2 =
      Event.lock :: (callTexts tag tid ms msgs).map Event.write ++ [Event.unlock] := by
  simp [logCall, h]

theorem concatStrs_callTexts (tag : String) (tid ms : Nat) (msgs : List String) :
    concatStrs (callTexts tag tid ms msgs) =
      msgHeader tid ms ++ tag ++ concatStrs msgs ++ "\n" := by
  simp [callTexts, concatStrs, concatStrs_append, String.append_empty,
    String.append_assoc]

theorem lineOfEvents_callTexts (tag : String) (tid ms : Nat) (msgs : List String) :
    lineOfEvents
        (Event.lock :: (callTexts tag tid ms msgs).map Event.write ++ [Event.unlock]) =
      msgHeader tid ms ++ tag ++ concatStrs msgs ++ "\n" := by
  rw [lineOfEvents, filterMap_evText_writes, concatStrs_callTexts]

/-! ## Claim theorems -/

/-- C1: a leveled call writes iff its severity is at least the current
threshold, under the ordering Trace(0) < Info(1) < Warn(2) < Error(3) <
Fatal(4) < None(5) of the underlying `uint8_t` values; each of the five
methods is the common gate-and-write body at its own severity; with the
threshold `None` all five calls perform no action at all; and at the
console-bound sink the gate decides exactly whether the full line lands on
the console. -/
theorem c1_severity_gate :
    (log_level.Trace.toNat = 0 ∧ log_level.Info.toNat = 1 ∧
      log_level.Warn.toNat = 2 ∧ log_level.Error.toNat = 3 ∧
      log_level.Fatal.toNat = 4 ∧ log_level.None.toNat = 5) ∧
    (fatal = logCall log_level.Fatal "FATAL: " ∧
      error = logCall log_level.Error "ERROR: " ∧
      warning = logCall log_level.Warn "WARN:  " ∧
      info = logCall log_level.Info "INFO:  " ∧
      trace = logCall log_level.Trace "TRACE: ") ∧
    (∀ (sev : log_level) (tag : String) (tid ms : Nat) (msgs : List String)
        (T : log_level) (s : LogstreamState) (w : World),
      ((logCall sev tag tid ms msgs ⟨T, s⟩ w).2.2 ≠ [] ↔ T.toNat ≤ sev.toNat)) ∧
    (∀ (sev : log_level) (tag : String) (tid ms : Nat) (msgs : List String)
        (T : log_level) (w : World),
      (logCall sev tag tid ms msgs ⟨T, initStream⟩ w).2.1.console =
        if T.toNat ≤ sev.toNat then
          w.console ++ (msgHeader tid ms ++ tag ++ concatStrs msgs ++ "\n")
        else w.console) ∧
    (∀ (tid ms : Nat) (msgs : List String) (s : LogstreamState) (w : World),
      (fatal tid ms msgs ⟨log_level.None, s⟩ w).2.2 = [] ∧
      (error tid ms msgs ⟨log_level.None, s⟩ w).2.2 = [] ∧
      (warning tid ms msgs ⟨log_level.None, s⟩ w).2.2 = [] ∧
      (info tid ms msgs ⟨log_level.None, s⟩ w).2.2 = [] ∧
      (trace tid ms msgs ⟨log_level.None, s⟩ w).2.2 = []) := by
  refine ⟨⟨rfl, rfl, rfl, rfl, rfl, rfl⟩, ⟨rfl, rfl, rfl, rfl, rfl⟩, ?_, ?_, ?_⟩
  · intro sev tag tid ms msgs T s w
    by_cases h : T.toNat ≤ sev.toNat <;> simp [logCall, gatePass, h]
  · intro sev tag tid ms msgs T w
    by_cases h : T.toNat ≤ sev.toNat <;>
      simp [logCall, gatePass, h, writeAll_console, concatStrs_callTexts]
  · intro tid ms msgs s w
    exact ⟨rfl, rfl, rfl, rfl, rfl⟩

/-- Witness for C1: a Fatal call against an Error threshold does write. -/
theorem c1_witness :
    (logCall log_level.Fatal "FATAL: " 7 1234 [] ⟨log_level.Error, initStream⟩ w0).2.2 ≠
      [] :=
  (c1_severity_gate.2.2.1 log_level.Fatal "FATAL: " 7 1234 [] log_level.Error
    initStream w0).mpr (by decide)

/-- C5: the text an emitted call sends to the sink is exactly
header ++ tag ++ concatenated args ++ newline, where the header is
`"[" ++ <thread id padded to width 5> ++ ", " ++ <elapsed, fixed, 3 decimals>
++ "] "` and the tags are the five fixed-width right-padded strings; the
final `"\n"` is `std::endl`, which also flushes. -/
theorem c5_line_shape :
    (∀ (tid ms : Nat) (msgs : List String) (T : log_level) (s : LogstreamState)
        (w : World),
      lineOfEvents (fatal tid ms msgs ⟨T, s⟩ w).2.2 =
        (if T.toNat ≤ log_level.Fatal.toNat then
          msgHeader tid ms ++ "FATAL: " ++ concatStrs msgs ++ "\n" else "") ∧
      lineOfEvents (error tid ms msgs ⟨T, s⟩ w).2.2 =
        (if T.toNat ≤ log_level.Error.toNat then
          msgHeader tid ms ++ "ERROR: " ++ concatStrs msgs ++ "\n" else "") ∧
      lineOfEvents (warning tid ms msgs ⟨T, s⟩ w).2.2 =
        (if T.toNat ≤ log_level.Warn.toNat then
          msgHeader tid ms ++ "WARN:  " ++ concatStrs msgs ++ "\n" else "") ∧
      lineOfEvents (info tid ms msgs ⟨T, s⟩ w).2.2 =
        (if T.toNat ≤ log_level.Info.toNat then
          msgHeader tid ms ++ "INFO:  " ++ concatStrs msgs ++ "\n" else "") ∧
      lineOfEvents (trace tid ms msgs ⟨T, s⟩ w).2.2 =
        (if T.toNat ≤ log_level.Trace.toNat then
          msgHeader tid ms ++ "TRACE: " ++ concatStrs msgs ++ "\n" else "")) ∧
    (∀ tid ms : Nat,
      msgHeader tid ms =
        "[" ++ padLeft ' ' 5 (toString tid) ++ ", " ++ fmtFixed3 ms ++ "] ") := by
  refine ⟨?_, fun tid ms => rfl⟩
  intro tid ms msgs T s w
  refine ⟨?_, ?_, ?_, ?_, ?_⟩
  · by_cases h : T.toNat ≤ log_level.Fatal.toNat
    · rw [if_pos h]
      show lineOfEvents (logCall log_level.Fatal "FATAL: " tid ms msgs ⟨T, s⟩ w).2.2 = _
      rw [logCall_events_locked _ _ _ _ _ _ _ (decide_eq_true h)]
      exact lineOfEvents_callTexts "FATAL: " tid ms msgs
    · rw [if_neg h]
      show lineOfEvents (logCall log_level.Fatal "FATAL: " tid ms msgs ⟨T, s⟩ w).2.2 = _
      have hg : gatePass log_level.Fatal T = false := decide_eq_false h
      simp [logCall, hg, lineOfEvents, concatStrs]
  · by_cases h : T.toNat ≤ log_level.Error.toNat
    · rw [if_pos h]
      show lineOfEvents (logCall log_level.Error "ERROR: " tid ms msgs ⟨T, s⟩ w).2.2 = _
      rw [logCall_events_locked _ _ _ _ _ _ _ (decide_eq_true h)]
      exact lineOfEvents_callTexts "ERROR: " tid ms msgs
    · rw [if_neg h]
      show lineOfEvents (logCall log_level.Error "ERROR: " tid ms msgs ⟨T, s⟩ w).2.2 = _
      have hg : gatePass log_level.Error T = false := decide_eq_false h
      simp [logCall, hg, lineOfEvents, concatStrs]
  · by_cases h : T.toNat ≤ log_level.Warn.toNat
    · rw [if_pos h]
      show lineOfEvents (logCall log_level.Warn "WARN:  " tid ms msgs ⟨T, s⟩ w).2.2 = _
      rw [logCall_events_locked _ _ _ _ _ _ _ (decide_eq_true h)]
      exact lineOfEvents_callTexts "WARN:  " tid ms msgs
    · rw [if_neg h]
      show lineOfEvents (logCall log_level.Warn "WARN:  " tid ms msgs ⟨T, s⟩ w).2.2 = _
      have hg : gatePass log_level.Warn T = false := decide_eq_false h
      simp [logCall, hg, lineOfEvents, concatStrs]
  · by_cases h : T.toNat ≤ log_level.Info.toNat
    · rw [if_pos h]
      show lineOfEvents (logCall log_level.Info "INFO:  " tid ms msgs ⟨T, s⟩ w).2.2 = _
      rw [logCall_events_locked _ _ _ _ _ _ _ (decide_eq_true h)]
      exact lineOfEvents_callTexts "INFO:  " tid ms msgs
    · rw [if_neg h]
      show lineOfEvents (logCall log_level.Info "INFO:  " tid ms msgs ⟨T, s⟩ w).2.2 = _
      have hg : gatePass log_level.Info T = false := decide_eq_false h
      simp [logCall, hg, lineOfEvents, concatStrs]
  · by_cases h : T.toNat ≤ log_level.Trace.toNat
    · rw [if_pos h]
      show lineOfEvents (logCall log_level.Trace "TRACE: " tid ms msgs ⟨T, s⟩ w).2.2 = _
      rw [logCall_events_locked _ _ _ _ _ _ _ (decide_eq_true h)]
      exact lineOfEvents_callTexts "TRACE: " tid ms msgs
    · rw [if_neg h]
      show lineOfEvents (logCall log_level.Trace "TRACE: " tid ms msgs ⟨T, s⟩ w).2.2 = _
      have hg : gatePass log_level.Trace T = false := decide_eq_false h
      simp [logCall, hg, lineOfEvents, concatStrs]

/-- Witness for C5: the format equation at a concrete emitted info call. -/
theorem c5_witness :
    lineOfEvents (info 7 1234 ["hello"] ⟨log_level.Trace, initStream⟩ w0).2.2 =
      if log_level.Trace.toNat ≤ log_level.Info.toNat then
        msgHeader 7 1234 ++ "INFO:  " ++ concatStrs ["hello"] ++ "\n"
      else "" :=
  (c5_line_shape.1 7 1234 ["hello"] log_level.Trace initStream w0).2.2.2.1

/-- C10: a leveled call whose severity is strictly below the threshold
performs no lock and no write (empty event trace), leaves the logger state
and the whole world (files and console) unchanged, and still returns the
logger itself. -/
theorem c10_suppressed_call_frame :
    ∀ (sev : log_level) (tag : String) (tid ms : Nat) (msgs : List String)
      (T : log_level) (s : LogstreamState) (w : World),
      sev.toNat < T.toNat →
      logCall sev tag tid ms msgs ⟨T, s⟩ w = (⟨T, s⟩, w, []) := by
  intro sev tag tid ms msgs T s w h
  have hg : gatePass sev T = false := decide_eq_false (Nat.not_le.mpr h)
  simp [logCall, hg]

/-- Witness for C10 at a concrete suppressed call. -/
theorem c10_witness :
    log_level.Info.toNat < log_level.Error.toNat ∧
    logCall log_level.Info "INFO:  " 0 0 [] ⟨log_level.Error, initStream⟩ w0 =
      (⟨log_level.Error, initStream⟩, w0, []) :=
  ⟨by decide,
    c10_suppressed_call_frame log_level.Info "INFO:  " 0 0 [] log_level.Error
      initStream w0 (by decide)⟩

/-- C7 (amended): `close`/`close_file` twice always produces the same end
state as once, and with no file open (console-bound included) a close leaves
the logger completely unchanged.  The end state is, however, not always
console-bound — see the counterexample. -/
theorem c7_close_idempotent :
    (∀ s : LogstreamState, stream_close (stream_close s) = stream_close s) ∧
    (∀ (l : LoggerState) (w w2 : World),
      (close_file (close_file l w).1 w2).1 = (close_file l w).1) ∧
    (∀ (l : LoggerState) (w : World),
      l.strm.openPath = none → (close_file l w).1 = l) := by
  have hcc : ∀ s : LogstreamState, stream_close (stream_close s) = stream_close s := by
    intro s
    by_cases h : s.openPath.isSome <;> simp [stream_close, h]
  refine ⟨hcc, ?_, ?_⟩
  · intro l w w2
    show ({ l with strm := stream_close (stream_close l.strm) } : LoggerState) = _
    rw [hcc]
    rfl
  · intro l w h
    show ({ l with strm := stream_close l.strm } : LoggerState) = l
    simp [stream_close, h]

/-- Witness for C7 at a concrete console-bound logger. -/
theorem c7_witness :
    (close_file ⟨log_level.Info, initStream⟩ w0).1 = ⟨log_level.Info, initStream⟩ :=
  c7_close_idempotent.2.2 ⟨log_level.Info, initStream⟩ w0 rfl

/-- C7 counterexample: in the reachable state produced by a failed open,
`close_file` does not leave a console-bound sink — `close()` only restores
the console buffer when a file is actually open (slug.hpp line 101), and
after a failed open none is. -/
theorem c7_cex_not_console_bound :
    (close_file ⟨log_level.Trace, (stream_open w0 initStream "bad").2⟩ w0).1.strm.buf ≠
      Buf.console := by decide

/-- C8: `basic_logstream::open` uses append mode (slug.hpp line 83) —
opening changes no file's content, and a write after a successful open lands
after all pre-existing bytes of the target file. -/
theorem c8_append_mode :
    (∀ (w : World) (s : LogstreamState) (p q : Path),
      (stream_open w s p).1.content q = w.content q) ∧
    (∀ (w : World) (s : LogstreamState) (p : Path) (str : String),
      w.canOpen p = true →
        (stream_write (stream_open w s p).1 (stream_open w s p).2 str).1.content p =
          w.content p ++ str) := by
  constructor
  · intro w s p q
    by_cases h : w.canOpen p = true <;>
      simp [stream_open, stream_open_fl, filebuf_open, slugFlags, h]
  · intro w s p str h
    simp [stream_open, stream_open_fl, filebuf_open, slugFlags, h, stream_write]

/-- Witness for C8: the file `"ok"` holds `"old"`; after open and one write
it holds `"oldline"` — nothing truncated, new text appended. -/
theorem c8_witness :
    (stream_write (stream_open w1 initStream "ok").1 (stream_open w1 initStream "ok").2
        "line").1.content "ok" = "oldline" :=
  c8_append_mode.2 w1 initStream "ok" "line" (by decide)

/-- C3 (amended): after an open of an unopenable path the world is
untouched and the stream is good but pointed at the closed `m_filebuf`;
the first subsequent write sets `badbit` and emits nothing; further writes
are no-ops (no exception, no abort — the model is a total function); and a
later successful open fully recovers the stream (the `rdbuf` call clears the
badbit), after which writes land on the new file.  `close` does not recover
the console — see the counterexample. -/
theorem c3_failed_open_writes_noop_then_recover :
    ∀ (w : World) (s : LogstreamState) (p q : Path) (str : String),
      w.canOpen p = false → w.canOpen q = true →
      (stream_open w s p).1 = w ∧
      (stream_open w s p).2 = ⟨Buf.filebuf, none, false, false⟩ ∧
      stream_write w ⟨Buf.filebuf, none, false, false⟩ str =
        (w, ⟨Buf.filebuf, none, false, true⟩) ∧
      stream_write w ⟨Buf.filebuf, none, false, true⟩ str =
        (w, ⟨Buf.filebuf, none, false, true⟩) ∧
      (stream_open w ⟨Buf.filebuf, none, false, true⟩ q).2 =
        ⟨Buf.filebuf, some q, false, false⟩ ∧
      (stream_write (stream_open w ⟨Buf.filebuf, none, false, true⟩ q).1
          (stream_open w ⟨Buf.filebuf, none, false, true⟩ q).2 str).1.content q =
        w.content q ++ str := by
  intro w s p q str hp hq
  refine ⟨?_, ?_, rfl, rfl, ?_, ?_⟩
  · by_cases h : s.openPath.isSome <;>
      simp [stream_open, stream_open_fl, filebuf_open, hp, h]
  · by_cases h : s.openPath.isSome <;>
      simp [stream_open, stream_open_fl, filebuf_open, hp, h, stream_close,
        Option.not_isSome_iff_eq_none.mp]
  · simp [stream_open, stream_open_fl, filebuf_open, hq]
  · simp [stream_open, stream_open_fl, filebuf_open, slugFlags, hq, stream_write]

/-- Witness for C3 at the concrete world `w0` (`"bad"` unopenable, `"ok"`
openable): the failed open leaves a closed filebuf as the destination. -/
theorem c3_witness :
    (stream_open w0 initStream "bad").2 = ⟨Buf.filebuf, none, false, false⟩ :=
  (c3_failed_open_writes_noop_then_recover w0 initStream "bad" "ok" "x"
    (by decide) (by decide)).2.1

/-- C3 counterexample: immediately after the failed open the stream is NOT
in a failure state (`rdbuf(&m_filebuf)` on slug.hpp line 91 clears the
failbit that line 88 set), and a subsequent `close` does not recover
logging: a write after the close still reaches neither the console nor any
file. -/
theorem c3_cex_no_failure_state_and_close_no_recovery :
    ((stream_open w0 initStream "bad").2.fail = false ∧
      (stream_open w0 initStream "bad").2.bad = false) ∧
    (stream_write w0 (stream_close (stream_open w0 initStream "bad").2) "x").1.console
      = "" ∧
    (stream_write w0 (stream_close (stream_open w0 initStream "bad").2) "x").1.content
      "bad" = "" := by decide

/-- C4 (amended): in every reachable sink state exactly one of the two
buffers is active, and whenever a file is actually open, `close` reverts to
a clean console-bound state.  After a failed open, however, the active
buffer is the closed filebuf and `close` leaves it so — see the
counterexample. -/
theorem c4_close_reverts_when_file_open :
    ∀ (wc : World) (ops : List SinkOp),
      ((runOps wc ops).2.buf = Buf.console ∨ (runOps wc ops).2.buf = Buf.filebuf) ∧
      ((runOps wc ops).2.openPath.isSome = true →
        stream_close (runOps wc ops).2 =
          ⟨Buf.console, none, false, false⟩) := by
  intro wc ops
  constructor
  · cases h : (runOps wc ops).2.buf
    · exact Or.inl rfl
    · exact Or.inr rfl
  · intro h
    simp [stream_close, h]

/-- Witness for C4: after a successful open of `"ok"`, closing reverts to
the clean console-bound state. -/
theorem c4_witness :
    stream_close (runOps w0 [SinkOp.op_open "ok"]).2 =
      ⟨Buf.console, none, false, false⟩ :=
  (c4_close_reverts_when_file_open w0 [SinkOp.op_open "ok"]).2 (by decide)

/-- C4 counterexample: in the reachable state after a failed open,
`close()` does not make the console the active destination. -/
theorem c4_cex_close_keeps_filebuf :
    (stream_close (runOps w0 [SinkOp.op_open "bad"]).2).buf ≠ Buf.console := by
  decide

theorem applyOp_console_init (ws : World × LogstreamState) (op : SinkOp)
    (h : ws.2.buf = Buf.console → ws.2 = initStream) :
    (applyOp ws op).2.buf = Buf.console → (applyOp ws op).2 = initStream := by
  rcases ws with ⟨w, s⟩
  cases op with
  | op_open p =>
      intro h2
      exfalso
      by_cases hc : w.canOpen p = true <;>
        simp [applyOp, stream_open, stream_open_fl, filebuf_open, hc] at h2
  | op_close =>
      intro h2
      by_cases hs : s.openPath.isSome = true
      · simp [applyOp, stream_close, hs, initStream]
      · simp only [applyOp] at h2 ⊢
        have he : stream_close s = s := by
          simp [stream_close, hs]
        rw [he] at h2 ⊢
        exact h h2
  | op_write str =>
      intro h2
      by_cases hf : (s.fail || s.bad) = true
      · simp [applyOp, stream_write, hf] at h2 ⊢
        exact h h2
      · rcases hb : s.buf with _ | _ <;> rcases ho : s.openPath with _ | p <;>
          simp [applyOp, stream_write, hf, hb, ho] at h2 ⊢ <;>
          exact h hb

/-- Every reachable sink state that has the console as its `rdbuf` target is
the pristine initial state: no open file, clean bits. -/
theorem runOps_console_init :
    ∀ (wc : World) (ops : List SinkOp),
      ((runOps wc ops).2.buf = Buf.console → (runOps wc ops).2 = initStream) := by
  intro wc ops
  suffices hgen : ∀ (l : List SinkOp) (ws : World × LogstreamState),
      (ws.2.buf = Buf.console → ws.2 = initStream) →
      ((l.foldl applyOp ws).2.buf = Buf.console →
        (l.foldl applyOp ws).2 = initStream) by
    exact hgen ops (wc, initStream) (fun _ => rfl)
  intro l
  induction l with
  | nil => intro ws h; exact h
  | cons op rest ih =>
      intro ws h
      exact ih (applyOp ws op) (applyOp_console_init ws op h)

/-- C6 (amended): over all reachable sink states, `is_open()` implies that
the filebuf, not the console, is the active `rdbuf` target, and a
console-bound sink always reports `is_open() = false`.  The full claimed
equivalence fails in the failed-open state (destination is the closed
filebuf while `is_open()` is `false`) — see the counterexample. -/
theorem c6_isOpen_implies_file_destination :
    ∀ (wc : World) (ops : List SinkOp),
      ((runOps wc ops).2.isOpen = true → (runOps wc ops).2.buf = Buf.filebuf) ∧
      ((runOps wc ops).2.buf = Buf.console → (runOps wc ops).2.isOpen = false) := by
  intro wc ops
  have h := runOps_console_init wc ops
  constructor
  · intro ho
    cases hb : (runOps wc ops).2.buf
    · exfalso
      rw [h hb] at ho
      exact absurd ho (by decide)
    · rfl
  · intro hb
    rw [h hb]
    rfl

/-- Witness for C6: after a successful open, `is_open()` is true and the
filebuf is the destination. -/
theorem c6_witness :
    (runOps w0 [SinkOp.op_open "ok"]).2.buf = Buf.filebuf :=
  (c6_isOpen_implies_file_destination w0 [SinkOp.op_open "ok"]).1 (by decide)

/-- C6 counterexample: after a failed open the destination has switched to
the (closed) filebuf — the failed file target — yet `is_open()` reports
`false`, refuting the claimed equivalence in exactly the state the claim
singles out. -/
theorem c6_cex_failed_open_destination :
    (runOps w0 [SinkOp.op_open "bad"]).2.buf = Buf.filebuf ∧
    (runOps w0 [SinkOp.op_open "bad"]).2.isOpen = false := by decide

/-! ## Proofs about the interleaving machine (claim C2) -/

theorem concatStrs_singleton (s : String) : concatStrs [s] = s := by
  simp [concatStrs, String.append_empty]

theorem pendM_update {n : Nat} (f : Fin n → TState) (t : Fin n) (v : TState) :
    pendM (Function.update f t v) =
      ((restLines v : List String) : Multiset String) +
        ∑ u ∈ Finset.univ.erase t,
          ((restLines (f u) : List String) : Multiset String) := by
  have hfun : ∀ u : Fin n,
      ((restLines (Function.update f t v u) : List String) : Multiset String) =
        Function.update
          (fun u2 => ((restLines (f u2) : List String) : Multiset String)) t
          ((restLines v : List String) : Multiset String) u := by
    intro u
    by_cases h : u = t
    · subst h
      simp
    · simp [Function.update_noteq h]
  rw [pendM, Finset.sum_congr rfl (fun u _ => hfun u),
    Finset.sum_update_of_mem (Finset.mem_univ t), Finset.erase_eq]

theorem pendM_decomp {n : Nat} (f : Fin n → TState) (t : Fin n) :
    pendM f = ((restLines (f t) : List String) : Multiset String) +
      ∑ u ∈ Finset.univ.erase t,
        ((restLines (f u) : List String) : Multiset String) :=
  (Finset.add_sum_erase _ _ (Finset.mem_univ t)).symm

theorem inv_step {n : Nat} {A : Multiset String} {c1 c2 : Conf n}
    (hinv : Inv A c1) (hs : Step c1 c2) : Inv A c2 := by
  cases hs with
  | start t j js ho ht =>
      obtain ⟨hidle, done, hout, hsum⟩ := hinv.1 ho
      constructor
      · intro h2
        simp at h2
      · intro u hu
        have htu : t = u := Option.some.inj hu
        subst htu
        refine ⟨j, js, done, "", ?_, ?_, ?_, ?_⟩
        · simp
        · intro u2 hu2
          dsimp only
          rw [Function.update_noteq hu2]
          exact hidle u2
        · rw [String.append_empty]
          exact hout
        · show (done : Multiset String) + {"" ++ lineOf j} +
              pendM (Function.update c1.thr t (TState.run j js)) = A
          rw [String.empty_append, pendM_update]
          have hd := pendM_decomp c1.thr t
          rw [ht] at hd
          rw [hd] at hsum
          simp only [restLines, List.map_cons] at hsum ⊢
          rw [← Multiset.cons_coe, ← Multiset.singleton_add] at hsum
          abel_nf at hsum ⊢
          exact hsum
  | seg t str cur js ho ht =>
      obtain ⟨cur0, js0, done, written, hthr, hidle2, hout, hsum⟩ := hinv.2 t ho
      rw [ht] at hthr
      injection hthr with h1 h2
      subst h1
      subst h2
      constructor
      · intro h2x
        simp at h2x
      · intro u hu
        have htu : t = u := Option.some.inj hu
        subst htu
        refine ⟨cur, js, done, written ++ str, ?_, ?_, ?_, ?_⟩
        · simp
        · intro u2 hu2
          dsimp only
          rw [Function.update_noteq hu2]
          exact hidle2 u2 hu2
        · show c1.out ++ str = concatStrs done ++ (written ++ str)
          rw [hout, String.append_assoc]
        · show (done : Multiset String) + {written ++ str ++ lineOf cur} +
              pendM (Function.update c1.thr t (TState.run cur js)) = A
          have hline : written ++ str ++ lineOf cur = written ++ lineOf (str :: cur) :=
            String.append_assoc written str (lineOf cur)
          rw [hline, pendM_update]
          have hd := pendM_decomp c1.thr t
          rw [ht] at hd
          rw [hd] at hsum
          simp only [restLines] at hsum ⊢
          exact hsum
  | finish t js ho ht =>
      obtain ⟨cur0, js0, done, written, hthr, hidle2, hout, hsum⟩ := hinv.2 t ho
      rw [ht] at hthr
      injection hthr with h1 h2
      subst h1
      subst h2
      constructor
      · intro h2x
        refine ⟨?_, done ++ [written], ?_, ?_⟩
        · intro u
          by_cases hu : u = t
          · subst hu
            exact ⟨js, by simp⟩
          · obtain ⟨js2, hjs2⟩ := hidle2 u hu
            refine ⟨js2, ?_⟩
            dsimp only
            rw [Function.update_noteq hu]
            exact hjs2
        · show c1.out = concatStrs (done ++ [written])
          rw [concatStrs_append, concatStrs_singleton]
          exact hout
        · show ((done ++ [written] : List String) : Multiset String) +
              pendM (Function.update c1.thr t (TState.idle js)) = A
          rw [pendM_update]
          have hd := pendM_decomp c1.thr t
          rw [ht] at hd
          rw [hd] at hsum
          simp only [restLines] at hsum ⊢
          have hw : written ++ lineOf ([] : List String) = written :=
            String.append_empty written
          rw [hw] at hsum
          have hco : ((done ++ [written] : List String) : Multiset String) =
              (done : Multiset String) + {written} := by
            rw [← Multiset.coe_singleton written]
            exact_mod_cast rfl
          rw [hco]
          abel_nf at hsum ⊢
          exact hsum
      · intro u hu
        simp at hu

theorem inv_init {n : Nat} (jobs : Fin n → List (List String)) :
    Inv (pendM (fun t => TState.idle (jobs t))) (initConf jobs) := by
  constructor
  · intro _
    refine ⟨fun t => ⟨jobs t, rfl⟩, [], rfl, ?_⟩
    rw [show (([] : List String) : Multiset String) = 0 from Multiset.coe_nil,
      zero_add]
    rfl
  · intro u hu
    simp [initConf] at hu

theorem steps_inv {n : Nat} {A : Multiset String} {c1 c2 : Conf n}
    (h : Steps c1 c2) (hinv : Inv A c1) : Inv A c2 := by
  induction h with
  | refl => exact hinv
  | tail hsteps hstep ih => exact inv_step ih hstep

theorem machine_atomic_lines {n : Nat} (jobs : Fin n → List (List String))
    (c : Conf n) (h : Steps (initConf jobs) c)
    (hfin : ∀ t, c.thr t = TState.idle []) :
    ∃ L : List String, c.out = concatStrs L ∧
      (L : Multiset String) =
        ∑ t : Fin n, (((jobs t).map lineOf : List String) : Multiset String) := by
  have hinv := steps_inv h (inv_init jobs)
  cases howner : c.owner with
  | none =>
      obtain ⟨-, done, hout, hsum⟩ := hinv.1 howner
      refine ⟨done, hout, ?_⟩
      have hz : pendM c.thr = 0 := by
        apply Finset.sum_eq_zero
        intro t _
        rw [hfin t]
        exact Multiset.coe_nil
      rw [hz, add_zero] at hsum
      exact hsum
  | some t =>
      obtain ⟨cur, js, -, -, hthr, -⟩ := hinv.2 t howner
      rw [hfin t] at hthr
      exact absurd hthr (by simp)

theorem card_finsum {ι : Type} [DecidableEq ι] (s : Finset ι)
    (f : ι → Multiset String) :
    Multiset.card (∑ i ∈ s, f i) = ∑ i ∈ s, Multiset.card (f i) := by
  induction s using Finset.induction_on with
  | empty => simp
  | insert h ih => rw [Finset.sum_insert h, Finset.sum_insert h, Multiset.card_add, ih]

/-- C2: when `n` threads share one logger and each runs its list of emitted
log calls — every call inserting its fragments while it holds the mutex, as
`logCall_events_locked` shows the source does — then however the scheduler
interleaves the threads, the final sink text is a concatenation of complete
lines: one full `callLine` per call, `n * M` of them, with no line a splice
of two calls' text. -/
theorem c2_lines_atomic {n M : Nat} (calls : Fin n → List CallSpec)
    (hM : ∀ t, (calls t).length = M) (c : Conf n)
    (h : Steps (initConf (fun t => (calls t).map callSegs)) c)
    (hfin : ∀ t, c.thr t = TState.idle []) :
    ∃ L : List String,
      c.out = concatStrs L ∧
      L.length = n * M ∧
      (L : Multiset String) =
        ∑ t : Fin n, (((calls t).map callLine : List String) : Multiset String) := by
  obtain ⟨L, hout, hmul⟩ := machine_atomic_lines _ c h hfin
  have hmap : ∀ t : Fin n, ((calls t).map callSegs).map lineOf = (calls t).map callLine := by
    intro t
    rw [List.map_map]
    rfl
  have hmul2 : (L : Multiset String) =
      ∑ t : Fin n, (((calls t).map callLine : List String) : Multiset String) := by
    rw [hmul]
    exact Finset.sum_congr rfl (fun t _ => by rw [hmap t])
  refine ⟨L, hout, ?_, hmul2⟩
  have hcard := congrArg Multiset.card hmul2
  rw [Multiset.coe_card, card_finsum] at hcard
  rw [hcard]
  have hone : ∀ t : Fin n,
      Multiset.card (((calls t).map callLine : List String) : Multiset String) = M := by
    intro t
    rw [Multiset.coe_card, List.length_map, hM t]
  rw [Finset.sum_congr rfl (fun t _ => hone t)]
  simp [Finset.sum_const, Finset.card_univ, Nat.smul_one_eq_cast]

theorem upd1 {β : Type} (f : Fin 1 → β) (v : β) :
    Function.update f 0 v = fun _ => v := by
  funext u
  have hu : u = 0 := Subsingleton.elim u 0
  subst hu
  simp

theorem run_segs (cur : List String) (js : List (List String)) (os : String) :
    Steps (⟨some 0, fun _ => TState.run cur js, os⟩ : Conf 1)
      ⟨some 0, fun _ => TState.run [] js, os ++ concatStrs cur⟩ := by
  induction cur generalizing os with
  | nil =>
      have he : os ++ concatStrs [] = os := String.append_empty os
      rw [he]
      exact Relation.ReflTransGen.refl
  | cons s rest ih =>
      refine Relation.ReflTransGen.head (Step.seg _ 0 s rest js rfl rfl) ?_
      rw [upd1]
      have he : os ++ concatStrs (s :: rest) = (os ++ s) ++ concatStrs rest :=
        (String.append_assoc os s (concatStrs rest)).symm
      rw [he]
      exact ih (os ++ s)

theorem run_jobs (js : List (List String)) (os : String) :
    Steps (⟨none, fun _ => TState.idle js, os⟩ : Conf 1)
      ⟨none, fun _ => TState.idle [], os ++ concatStrs (js.map lineOf)⟩ := by
  induction js generalizing os with
  | nil =>
      have he : os ++ concatStrs (List.map lineOf []) = os := String.append_empty os
      rw [he]
      exact Relation.ReflTransGen.refl
  | cons j rest ih =>
      refine Relation.ReflTransGen.head (Step.start _ 0 j rest rfl rfl) ?_
      rw [upd1]
      refine Relation.ReflTransGen.trans (run_segs j rest os) ?_
      refine Relation.ReflTransGen.head (Step.finish _ 0 rest rfl rfl) ?_
      rw [upd1]
      have he : os ++ concatStrs (List.map lineOf (j :: rest)) =
          (os ++ concatStrs j) ++ concatStrs (List.map lineOf rest) :=
        (String.append_assoc os (concatStrs j) (concatStrs (List.map lineOf rest))).symm
      rw [he]
      exact ih (os ++ concatStrs j)

/-- C9 (refuting the claim, exhibiting the code's bug): with thread `false`
running `a.swap(b)` and thread `true` running `b.swap(a)` — each taking
`this`'s mutex first and then `rhs`'s mutex, exactly as slug.hpp lines
322-323 do, with no address ordering and no combined acquisition — the
configuration in which each thread holds its first mutex is reachable, both
threads still have work to do, and from it no step is possible: a genuine
deadlock. -/
theorem c9_swap_opposite_order_deadlock :
    Relation.ReflTransGen SStep swapInit swapDead ∧
    (swapDead.prog false ≠ [] ∧ swapDead.prog true ≠ []) ∧
    (∀ c : SConf, ¬ SStep swapDead c) := by
  refine ⟨?_, ⟨by decide, by decide⟩, ?_⟩
  · have h1 : SStep swapInit
        ⟨some false, none,
          Function.update swapInit.prog false [LAct.acqB, LAct.relB, LAct.relA]⟩ :=
      SStep.acqA swapInit false [LAct.acqB, LAct.relB, LAct.relA] rfl rfl
    have h2 : SStep
        ⟨some false, none,
          Function.update swapInit.prog false [LAct.acqB, LAct.relB, LAct.relA]⟩
        ⟨some false, some true,
          Function.update
            (Function.update swapInit.prog false [LAct.acqB, LAct.relB, LAct.relA])
            true [LAct.acqA, LAct.relA, LAct.relB]⟩ :=
      SStep.acqB _ true [LAct.acqA, LAct.relA, LAct.relB] rfl rfl
    have hp : Function.update
        (Function.update swapInit.prog false [LAct.acqB, LAct.relB, LAct.relA])
        true [LAct.acqA, LAct.relA, LAct.relB] = swapDead.prog := by
      funext t
      cases t <;> rfl
    have heq : (⟨some false, some true,
        Function.update
          (Function.update swapInit.prog false [LAct.acqB, LAct.relB, LAct.relA])
          true [LAct.acqA, LAct.relA, LAct.relB]⟩ : SConf) = swapDead := by
      rw [show (swapDead : SConf) = ⟨some false, some true, swapDead.prog⟩ from rfl, hp]
    exact Relation.ReflTransGen.head h1
      (Relation.ReflTransGen.head (heq ▸ h2) Relation.ReflTransGen.refl)
  · intro c h
    cases h with
    | acqA t r h1 h2 => simp [swapDead] at h2
    | acqB t r h1 h2 => simp [swapDead] at h2
    | relA t r h1 h2 => cases t <;> simp [swapDead] at h1
    | relB t r h1 h2 => cases t <;> simp [swapDead] at h1

/-- Witness for C9: the stuck-state property applied at a concrete target. -/
theorem c9_witness : ¬ SStep swapDead swapInit :=
  c9_swap_opposite_order_deadlock.2.2 swapInit

/-- Witness for C2: one thread runs its single INFO call to completion; the
sink ends with exactly that call's complete line. -/
theorem c2_witness :
    ∃ L : List String,
      wFinal.out = concatStrs L ∧
      L.length = 1 * 1 ∧
      (L : Multiset String) =
        ∑ t : Fin 1, (((wCalls t).map callLine : List String) : Multiset String) := by
  refine c2_lines_atomic (M := 1) wCalls (fun t => rfl) wFinal ?_ (fun t => rfl)
  have h := run_jobs [callSegs wSpec] ""
  have he : ("" ++ concatStrs (List.map lineOf [callSegs wSpec])) =
      "[    7, 1.234] INFO:  \n" := by decide
  rw [he] at h
  exact h

end slug
